import Mathlib

/-!
Verification development for the mepris step-orchestration engine.

Shallow embedding of the core modules, translated from the Rust sources:
  * `src/config/expr.rs`   — selection-expression AST and its two evaluators
  * `src/config/alias.rs`  — layered package-alias tables
  * `src/config/mod.rs`    — package managers, repositories, package sources, steps
  * `src/commands/utils.rs`— the filter pipeline
  * `src/commands/resume.rs` — the resume entry point
  * `src/runner/mod.rs`    — the live execution engine and the dry-run planner

Rust `HashMap`s are modelled as partial functions by key; subprocess and file
I/O outcomes are supplied by explicit oracle environments so that the control
flow of the engine is captured exactly while the outside world stays abstract.
-/

namespace Mepris

/-- Decidable equality for `Except`, so concrete filter results can be checked
by `decide`. -/
instance {ε α : Type} [DecidableEq ε] [DecidableEq α] : DecidableEq (Except ε α) :=
  fun x y =>
    match x, y with
    | .ok a, .ok b =>
        if h : a = b then isTrue (h ▸ rfl)
        else isFalse (fun hh => h (Except.ok.inj hh))
    | .error a, .error b =>
        if h : a = b then isTrue (h ▸ rfl)
        else isFalse (fun hh => h (Except.error.inj hh))
    | .ok _, .error _ => isFalse (fun hh => Except.noConfusion hh)
    | .error _, .ok _ => isFalse (fun hh => Except.noConfusion hh)

/-! ## Selection Expression Engine (src/config/expr.rs) -/

/-- `Expr` from src/config/expr.rs: Var / Not / And / Or over atom names. -/
inductive Expr where
  | var : String → Expr
  | not : Expr → Expr
  | and : Expr → Expr → Expr
  | or  : Expr → Expr → Expr
deriving DecidableEq, Repr

/-- `Expr::collect_vars` / `Expr::vars`: the atom names referenced by an
expression, in traversal order (the Rust code collects into a `HashSet`; only
membership is ever relevant). -/
def Expr.varsList : Expr → List String
  | .var s => [s]
  | .not e => e.varsList
  | .and a b => a.varsList ++ b.varsList
  | .or a b => a.varsList ++ b.varsList

/-- `Platform` from src/os_info.rs. -/
inductive Platform where
  | linux
  | macOS
  | windows
deriving DecidableEq, Repr

/-- `Platform::as_str`. -/
def Platform.asStr : Platform → String
  | .linux => "linux"
  | .macOS => "macos"
  | .windows => "windows"

/-- `OsInfo` from src/os_info.rs. -/
structure OsInfo where
  platform : Platform
  id : Option String
  idLike : List String
deriving DecidableEq, Repr

/-- `char::to_ascii_lowercase` on one character. -/
def asciiLowerChar (c : Char) : Char :=
  if 'A' ≤ c ∧ c ≤ 'Z' then Char.ofNat (c.toNat + 32) else c

/-- `str::to_ascii_lowercase`. -/
def asciiLower (s : String) : String :=
  ⟨s.data.map asciiLowerChar⟩

/-- `OsCond` from src/config/expr.rs. -/
inductive OsCond where
  | os : String → OsCond
  | idLike : String → OsCond
deriving DecidableEq, Repr

/-- `parse_term` from src/config/expr.rs: lowercase the atom, a `%`-prefixed
atom is an id-like family predicate, otherwise a plain OS/distribution name. -/
def parse_term (term : String) : OsCond :=
  match asciiLower term with
  | ⟨'%' :: rest⟩ => .idLike ⟨rest⟩
  | norm => .os norm

/-- `eval_os_expr` from src/config/expr.rs. -/
def eval_os_expr (e : Expr) (info : OsInfo) : Bool :=
  match e with
  | .var s =>
      match parse_term s with
      | .os id => id == info.platform.asStr || some id == info.id
      | .idLike id => info.idLike.contains id
  | .not e => !eval_os_expr e info
  | .and a b => eval_os_expr a info && eval_os_expr b info
  | .or a b => eval_os_expr a info || eval_os_expr b info

/-- `eval_tags_expr` from src/config/expr.rs: an atom is true iff it is a
member (exact string equality) of the step's tag list. -/
def eval_tags_expr (e : Expr) (tags : List String) : Bool :=
  match e with
  | .var s => tags.contains s
  | .not e => !eval_tags_expr e tags
  | .and a b => eval_tags_expr a tags && eval_tags_expr b tags
  | .or a b => eval_tags_expr a tags || eval_tags_expr b tags

/-- Rename every atom of an expression (used to state case-insensitivity:
a "case change" is an atom renaming that preserves `asciiLower`). -/
def Expr.mapAtoms (f : String → String) : Expr → Expr
  | .var s => .var (f s)
  | .not e => .not (e.mapAtoms f)
  | .and a b => .and (a.mapAtoms f) (b.mapAtoms f)
  | .or a b => .or (a.mapAtoms f) (b.mapAtoms f)

/-! ## Package managers, repositories, sources (src/config/mod.rs) -/

/-- `PackageManager` from src/config/mod.rs. -/
inductive PackageManager where
  | apt | dnf | pacman | zypper | yay | paru | flatpak
  | brew | scoop | choco | winget | cargo | npm
deriving DecidableEq, Repr

/-- `Repository` from src/config/mod.rs (only the AUR exists). -/
inductive Repository where
  | aur
deriving DecidableEq, Repr

/-- `Repository::iter()` as produced by strum's `EnumIter`. -/
def Repository.iterAll : List Repository := [.aur]

/-- `Repository::get_package_managers`. -/
def Repository.get_package_managers : Repository → List PackageManager
  | .aur => [.yay, .paru]

/-- `PackageSource` from src/config/mod.rs. -/
inductive PackageSource where
  | repository : Repository → PackageSource
  | manager : PackageManager → PackageSource
deriving DecidableEq, Repr

/-- `PackageSource::get_package_managers`. -/
def PackageSource.get_package_managers : PackageSource → List PackageManager
  | .repository r => r.get_package_managers
  | .manager pm => [pm]

/-! ## Package aliases (src/config/alias.rs)

The Rust type is `PackageAliases(HashMap<String, HashMap<PackageSource, String>>)`;
each `HashMap` is modelled as a partial function by key. -/

/-- `PackageAliases` from src/config/alias.rs: abstract package name →
(package source → concrete name). -/
structure PackageAliases where
  find : String → Option (PackageSource → Option String)

/-- Lookup of one (package, source) entry: `self.0.get(package).and_then(|map| map.get(&source))`. -/
def PackageAliases.entry (a : PackageAliases) (pkg : String) (src : PackageSource) :
    Option String :=
  (a.find pkg).bind (fun m => m src)

/-- The `for repo in Repository::iter()` loop in `resolve_name`: start from the
manager key and switch to a repository key for every repository whose manager
list contains the manager. -/
def sourceForManager (manager : PackageManager) : PackageSource :=
  Repository.iterAll.foldl
    (fun acc repo =>
      if repo.get_package_managers.contains manager then .repository repo else acc)
    (.manager manager)

/-- `PackageAliases::resolve_name`: look the package up under the computed
source key; absent entries fall back to the original name. -/
def PackageAliases.resolve_name (a : PackageAliases) (pkg : String)
    (manager : PackageManager) : String :=
  (a.entry pkg (sourceForManager manager)).getD pkg

/-- `PackageAliases::resolve_names`. -/
def PackageAliases.resolve_names (a : PackageAliases) (pkgs : List String)
    (manager : PackageManager) : List String :=
  pkgs.map (fun p => a.resolve_name p manager)

/-- `PackageAliases::merge`: clone the global map, then for each local package
entry either insert its source entries one by one into the existing package map
(`and_modify`, local wins per key) or insert the whole local map (`or_insert`). -/
def PackageAliases.merge (a other : PackageAliases) : PackageAliases :=
  ⟨fun pkg =>
    match other.find pkg, a.find pkg with
    | some localMap, some globalMap =>
        some (fun src =>
          match localMap src with
          | some v => some v
          | none => globalMap src)
    | some localMap, none => some localMap
    | none, globalMap => globalMap⟩

/-! ## Steps and the filter pipeline (src/config/mod.rs, src/commands/utils.rs) -/

/-- `Shell` from src/shell.rs. -/
inductive Shell where
  | bash
  | powerShell
  | powerShellCore
deriving DecidableEq, Repr

/-- `Script` from src/config/mod.rs as consumed by src/runner/mod.rs. -/
structure Script where
  shell : Shell
  code : String
deriving DecidableEq, Repr

/-- `Defaults` from src/config/mod.rs (the field the runner consults). -/
structure Defaults where
  windowsPackageManager : Option PackageManager
deriving DecidableEq, Repr

/-- `Step` from src/config/mod.rs. -/
structure Step where
  id : String
  tags : List String
  os : Option Expr
  env : List String
  whenScript : Option Script
  packageSource : Option PackageSource
  packages : List String
  preScript : Option Script
  script : Option Script
  sourceFile : String
  defaults : Option Defaults
deriving DecidableEq, Repr

/-- A step with only an id and tags set (all optional data absent), used for
concrete instances. -/
def Step.simple (id : String) (tags : List String) : Step :=
  ⟨id, tags, none, [], none, none, [], none, none, "", none⟩

/-- `FilterResult` from src/commands/utils.rs. -/
structure FilterResult where
  matching : List Step
  notMatching : List Step
deriving DecidableEq, Repr

/-- The `HashMap` built at the start of `filter_by_ids`
(`steps.iter().map(|s| (s.id.as_str(), s)).collect()`): on duplicate ids the
later entry wins, as with repeated `HashMap` insertion. -/
def hmGet (steps : List Step) (id : String) : Option Step :=
  steps.foldl (fun acc s => if s.id = id then some s else acc) none

/-- `filter_by_ids` from src/commands/utils.rs: every requested id must exist
(error listing all unknown ids otherwise); the matching list follows the
requested id order; `not_matching` is the pool minus the requested ids (the
Rust iterates `HashMap` values in unspecified order; the model uses pool order
with later duplicates winning — no theorem relies on this order). -/
def filter_by_ids (steps : List Step) (ids : List String) :
    Except String FilterResult :=
  let unknown := ids.filter (fun id => (hmGet steps id).isNone)
  if unknown.isEmpty then
    .ok { matching := ids.filterMap (hmGet steps),
          notMatching :=
            (steps.filter (fun s => hmGet steps s.id = some s)).filter
              (fun s => !ids.contains s.id) }
  else
    .error ("Unknown steps: " ++ String.intercalate ", " unknown)

/-- `check_tags_exist` from src/commands/utils.rs: every checked tag must occur
in some step's tag list, else an error listing the unknown tags. -/
def check_tags_exist (steps : List Step) (tagsToCheck : List String) :
    Except String Unit :=
  let unknown :=
    tagsToCheck.filter (fun tag => !steps.any (fun s => s.tags.contains tag))
  if unknown.isEmpty then .ok ()
  else .error ("Unknown tags: " ++ String.intercalate ", " unknown)

/-- `filter_by_tags` from src/commands/utils.rs, after `parse` has produced the
expression: validate the referenced atoms against the pool's tags, then
partition by `eval_tags_expr` (Rust `partition` keeps relative order). -/
def filter_by_tags (steps : List Step) (expr : Expr) :
    Except String FilterResult :=
  match check_tags_exist steps expr.varsList with
  | .error e => .error e
  | .ok () =>
      .ok { matching := steps.filter (fun s => eval_tags_expr expr s.tags),
            notMatching := steps.filter (fun s => !eval_tags_expr expr s.tags) }

/-- The per-step predicate of `filter_by_os`: no OS expression matches
unconditionally, otherwise evaluate it against the host facts. -/
def osMatches (s : Step) (info : OsInfo) : Bool :=
  match s.os with
  | none => true
  | some e => eval_os_expr e info

/-- `filter_by_os` from src/commands/utils.rs (the Rust wraps the partition in
`Ok` and never errors). -/
def filter_by_os (steps : List Step) (info : OsInfo) : FilterResult :=
  { matching := steps.filter (fun s => osMatches s info),
    notMatching := steps.filter (fun s => !osMatches s info) }

/-- `filter_steps_start_with_id` from src/commands/utils.rs: split at the first
step carrying the start id; everything before is `not_matching`, everything
from it onward is `matching`; a missing id is an error. -/
def filter_steps_start_with_id (steps : List Step) (startId : String) :
    Except String FilterResult :=
  match steps.findIdx? (fun s => s.id = startId) with
  | some pos =>
      .ok { matching := steps.drop pos, notMatching := steps.take pos }
  | none => .error ("Start step '" ++ startId ++ "' not found in file")

/-! ## Execution engine and dry-run planner (src/runner/mod.rs)

Subprocess and file-system outcomes are abstracted into an oracle environment
`ExecEnv`; the engine's control flow (guard → save → confirm → pre → install →
main, soft vs hard failures) is translated literally from `run`, `run_step`,
`install_packages` and `run_dry`. Each externally visible action of the engine
is recorded as an `Event` so temporal claims can be stated on the trace. -/

/-- `PackageManager::command`. -/
def PackageManager.command : PackageManager → String
  | .pacman => "pacman"
  | .apt => "apt-get"
  | .dnf => "dnf"
  | .zypper => "zypper"
  | .brew => "brew"
  | .winget => "winget"
  | .yay => "yay"
  | .paru => "paru"
  | .flatpak => "flatpak"
  | .scoop => "scoop"
  | .choco => "choco"
  | .cargo => "cargo"
  | .npm => "npm"

/-- `Shell::get_command` from src/shell.rs. -/
def Shell.getCommand : Shell → String
  | .bash => "bash"
  | .powerShell => "powershell"
  | .powerShellCore => "pwsh"

/-- `interactive::Decision` (the four answers of `ask_confirmation`). -/
inductive Decision where
  | run
  | skip
  | abort
  | leaveInteractiveMode
deriving DecidableEq, Repr

/-- `RunState` from src/runner/mod.rs. -/
structure RunStateV where
  lastStepId : Option String
  interactive : Bool
deriving DecidableEq, Repr

/-- Externally visible actions of the engine, in trace order. `toSink` on a
guard marks output routed to `io::sink()` (dry run) rather than the logger. -/
inductive Event where
  | guardRun (id : String) (toSink : Bool) (ok : Bool)
  | skipLogged (id : String)
  | saveState (st : RunStateV) (ok : Bool)
  | saveWarning
  | preRun (id : String) (ok : Bool)
  | managerMissing (id : String)
  | installRun (id : String) (pkgs : List String) (ok : Bool)
  | mainRun (id : String) (ok : Bool)
deriving DecidableEq, Repr

/-- How the live loop ends: `finished` = fell off the end of the step list
(`Ok(None)` after the final save), `aborted` = interactive Abort
(`return Ok(None)`), `failed` = a hard error propagated (`Err`). -/
inductive RunResult where
  | finished
  | aborted
  | failed
deriving DecidableEq, Repr

/-- Oracle environment: outcomes of every external interaction. `whenOk`,
`preOk`, `mainOk` are the success of the corresponding script subprocess for a
step; `installOk` the success of all of a step's install commands; `saveOk`
whether `StateSaver::save` succeeds; `managerFound` models `which` on a
manager's binary; `shellAvailable` models `is_shell_available`; `decision` the
interactive answer; `defaultManager` the already-detected
`default_package_manager` result. -/
structure ExecEnv where
  whenOk : Step → Bool
  preOk : Step → Bool
  mainOk : Step → Bool
  installOk : Step → Bool
  saveOk : RunStateV → Bool
  managerFound : PackageManager → Bool
  shellAvailable : Shell → Bool
  decision : Step → Decision
  aliases : PackageAliases
  defaultManager : PackageManager
  platform : Platform

/-- `step_package_manager` from src/runner/mod.rs. The candidate list of a
`PackageSource` is non-empty by construction, so the `headD` default is never
used. -/
def step_package_manager (env : ExecEnv) (step : Step) : PackageManager :=
  match step.packageSource with
  | some src =>
      match src.get_package_managers.find? (fun m => env.managerFound m) with
      | some m => m
      | none => src.get_package_managers.headD env.defaultManager
  | none =>
      match step.defaults.bind (fun d => d.windowsPackageManager) with
      | some winPm => if env.platform = .windows then winPm else env.defaultManager
      | none => env.defaultManager

/-- The per-step clone at the top of the `run` loop:
`step.packages = aliases.resolve_names(&step.packages, &default_package_manager)`. -/
def resolveStep (env : ExecEnv) (s : Step) : Step :=
  { s with packages := env.aliases.resolve_names s.packages env.defaultManager }

/-- The two log lines around `StateSaver::save`: the save is attempted and a
failure only produces a warning. -/
def saveEvents (env : ExecEnv) (st : RunStateV) : List Event :=
  if env.saveOk st then [.saveState st true] else [.saveState st false, .saveWarning]

/-- The pre-script part of `run_step`: run it if present, failure is hard. -/
def preEvents (env : ExecEnv) (step : Step) : List Event × Bool :=
  match step.preScript with
  | some _ => ([.preRun step.id (env.preOk step)], env.preOk step)
  | none => ([], true)

/-- The package part of `run_step` (`install_packages`): nothing when the step
has no packages; otherwise the resolved manager must be on PATH (else a hard
error) and then the install commands run, any failure being hard. -/
def installEvents (env : ExecEnv) (step : Step) : List Event × Bool :=
  if step.packages.isEmpty then ([], true)
  else if env.managerFound (step_package_manager env step) then
    ([.installRun step.id step.packages (env.installOk step)], env.installOk step)
  else ([.managerMissing step.id], false)

/-- The main-script part of `run_step`: run it if present, failure is hard. -/
def mainEvents (env : ExecEnv) (step : Step) : List Event × Bool :=
  match step.script with
  | some _ => ([.mainRun step.id (env.mainOk step)], env.mainOk step)
  | none => ([], true)

/-- `run_step` from src/runner/mod.rs (together with `install_packages`):
pre-script, then packages, then main script; the first failure stops the step
with a hard error (`false`). -/
def run_step (env : ExecEnv) (step : Step) : List Event × Bool :=
  if (preEvents env step).2 then
    if (installEvents env step).2 then
      ((preEvents env step).1 ++ (installEvents env step).1 ++ (mainEvents env step).1,
       (mainEvents env step).2)
    else ((preEvents env step).1 ++ (installEvents env step).1, false)
  else ((preEvents env step).1, false)

/-- Prefix a trace onto a loop continuation's result. -/
def prependEvents (evs : List Event) (r : List Event × RunResult) :
    List Event × RunResult :=
  (evs ++ r.1, r.2)

/-- `run_step(&step, ...)?` in the loop: on success the loop continues with
`cont`; a hard failure stops the run (`Err` propagation). -/
def execPart (env : ExecEnv) (step : Step) (cont : List Event × RunResult) :
    List Event × RunResult :=
  let (ee, ok) := run_step env step
  if ok then (ee ++ cont.1, cont.2) else (ee, .failed)

/-- The loop body after the guard has passed (or was absent): attempt to save
`RunState` at this step id (failure is only a warning), then in interactive
mode honor the confirmation decision (Run / Skip / Abort / leave interactive
mode for the rest of the run), then execute the step. `contSame` continues the
loop with the current interactive flag, `contFalse` with interactive turned
off. -/
def stepBody (env : ExecEnv) (step : Step) (interactive : Bool)
    (contSame contFalse : List Event × RunResult) : List Event × RunResult :=
  let save := saveEvents env ⟨some step.id, interactive⟩
  if interactive then
    match env.decision step with
    | .run => prependEvents save (execPart env step contSame)
    | .skip => prependEvents save contSame
    | .abort => (save, .aborted)
    | .leaveInteractiveMode => prependEvents save (execPart env step contFalse)
  else prependEvents save (execPart env step contSame)

/-- The step loop of `run` from src/runner/mod.rs (live, non-dry path): per
step — resolve aliases against the default manager, run the guard (soft
failure: log a skip and continue with the next step), then `stepBody` (save,
confirm, execute). After the last step, save `RunState` with no step id and
finish. -/
def runLoop (env : ExecEnv) (interactive : Bool) : List Step → List Event × RunResult
  | [] => (saveEvents env ⟨none, interactive⟩, .finished)
  | s :: rest =>
      let step := resolveStep env s
      match step.whenScript with
      | some _ =>
          if env.whenOk step then
            prependEvents [Event.guardRun step.id false true]
              (stepBody env step interactive
                (runLoop env interactive rest) (runLoop env false rest))
          else
            prependEvents
              [Event.guardRun step.id false false, Event.skipLogged step.id]
              (runLoop env interactive rest)
      | none =>
          stepBody env step interactive
            (runLoop env interactive rest) (runLoop env false rest)

/-- `PackageInfo` from src/runner/mod.rs. -/
structure PackageInfo where
  name : String
  useAlias : Bool
deriving DecidableEq, Repr

/-- `PackageManagerInfo` from src/runner/mod.rs. -/
structure PackageManagerInfo where
  name : String
  installed : Bool
deriving DecidableEq, Repr

/-- `StepDryRun` from src/runner/mod.rs. -/
structure StepDryRun where
  id : String
  missingShells : List String
  packageManager : Option PackageManagerInfo
  packagesToInstall : List PackageInfo
deriving DecidableEq, Repr

/-- `DryRunPlan` from src/runner/mod.rs. -/
structure DryRunPlan where
  stepsToRun : List StepDryRun
  stepsIgnoredByWhen : List String
deriving DecidableEq, Repr

/-- Modelled from the spec: `Step::all_used_shells` (its impl is not under
src/; the spec's dry-run section describes it as "any script-referenced
shells") — the shells of the step's when/pre/main scripts. -/
def Step.allUsedShells (s : Step) : List Shell :=
  [s.whenScript, s.preScript, s.script].filterMap (fun o => o.map (fun sc => sc.shell))

/-- The per-step record built by `run_dry` after the guard passed. -/
def dryRecord (env : ExecEnv) (s : Step) : StepDryRun :=
  let pmPart : Option PackageManagerInfo × List PackageInfo :=
    if s.packages.isEmpty then (none, [])
    else
      let pm := step_package_manager env s
      (some ⟨pm.command, env.managerFound pm⟩,
       s.packages.map (fun p =>
         let newName := env.aliases.resolve_name p pm
         ⟨newName, p != newName⟩))
  { id := s.id
    missingShells :=
      (s.allUsedShells.filter (fun sh => !env.shellAvailable sh)).map Shell.getCommand
    packageManager := pmPart.1
    packagesToInstall := pmPart.2 }

/-- `run_dry` from src/runner/mod.rs: for each step in order, run its guard for
real with output to `io::sink()`; a failed guard records the step under
`steps_ignored_by_when`, otherwise the step is recorded under `steps_to_run`
with manager presence, alias-resolved packages and missing shells. No state is
saved and no pre/install/main action happens. -/
def run_dry (env : ExecEnv) : List Step → List Event × DryRunPlan
  | [] => ([], ⟨[], []⟩)
  | s :: rest =>
      match s.whenScript with
      | some _ =>
          if env.whenOk s then
            (Event.guardRun s.id true true :: (run_dry env rest).1,
             { (run_dry env rest).2 with
                stepsToRun := dryRecord env s :: (run_dry env rest).2.stepsToRun })
          else
            (Event.guardRun s.id true false :: (run_dry env rest).1,
             { (run_dry env rest).2 with
                stepsIgnoredByWhen := s.id :: (run_dry env rest).2.stepsIgnoredByWhen })
      | none =>
          ((run_dry env rest).1,
           { (run_dry env rest).2 with
              stepsToRun := dryRecord env s :: (run_dry env rest).2.stepsToRun })

/-- `RunParameters` from src/runner/mod.rs (the fields the loop consults). -/
structure RunParameters where
  interactive : Bool
  dryRun : Bool
deriving DecidableEq, Repr

/-- `run` from src/runner/mod.rs after its pre-flight (script validation and
alias loading, whose outcomes are part of `env`): dispatch on `dry_run`. -/
def runner_run (env : ExecEnv) (params : RunParameters) (steps : List Step) :
    (List Event × DryRunPlan) ⊕ (List Event × RunResult) :=
  if params.dryRun then .inl (run_dry env steps)
  else .inr (runLoop env params.interactive steps)

/-! ## Resume entry point (src/commands/resume.rs) -/

/-- `RunInfo` from src/commands/utils.rs (the persisted run-state record). -/
structure RunInfo where
  file : String
  tagsExpr : Option String
  steps : List String
  interactive : Bool
  lastStepId : Option String
deriving DecidableEq, Repr

/-- `ResumeArgs` from src/cli.rs (the fields `resume::handle` consults). -/
structure ResumeArgs where
  interactive : Bool
  dryRun : Bool
deriving DecidableEq, Repr

/-- `RunArgs` from src/cli.rs (the fields `resume::handle` reconstructs). -/
structure RunArgs where
  file : String
  tagsExpr : Option String
  steps : List String
  startStepId : Option String
  interactive : Bool
  dryRun : Bool
deriving DecidableEq, Repr

/-- What `resume::handle` does before any run starts: the two "Nothing to
resume" notices (both return `Ok(())`), or the reconstructed run request that
is handed to `run::handle`. -/
inductive ResumeOutcome where
  | nothingToResume
  | lastRunSuccessful
  | startRun : RunArgs → ResumeOutcome
deriving DecidableEq, Repr

/-- `handle` from src/commands/resume.rs, up to the delegation to
`run::handle`: a failed `state::get()` (absent or unparsable state file) prints
"Nothing to resume…" and returns `Ok(())`; a state with no last step id prints
"Nothing to resume: last run was successful" and returns `Ok(())`; otherwise an
equivalent run request starting at the recorded step is built (interactive if
requested now or recorded then) and delegated. -/
def resume_handle (stateGet : Except String RunInfo) (args : ResumeArgs) :
    Except String ResumeOutcome :=
  match stateGet with
  | .error _ => .ok .nothingToResume
  | .ok st =>
      if st.lastStepId.isNone then .ok .lastRunSuccessful
      else
        .ok (.startRun
          { file := st.file
            tagsExpr := st.tagsExpr
            steps := st.steps
            startStepId := st.lastStepId
            interactive := args.interactive || st.interactive
            dryRun := args.dryRun })

/-! ## Trace observations

Helper functions on traces, used to state the temporal claims. -/

/-- The `last_step_id` of the most recent save *attempt* in a trace (`none`
when no save was attempted yet). -/
def accAfter (acc : Option (Option String)) (t : List Event) :
    Option (Option String) :=
  t.foldl
    (fun a e => match e with | .saveState st _ => some st.lastStepId | _ => a) acc

/-- The `last_step_id` of the most recent *successful* save in a trace: the
state actually persisted on disk after the trace (`acc` when nothing was
persisted by the trace itself). -/
def lastPersisted (acc : Option (Option String)) (t : List Event) :
    Option (Option String) :=
  t.foldl
    (fun a e => match e with | .saveState st true => some st.lastStepId | _ => a)
    acc

/-- Is this event an execution action (pre-script, package handling, main
script) of the step with the given id? -/
def Event.isExecOf (id : String) : Event → Bool
  | .preRun i _ => i == id
  | .installRun i _ _ => i == id
  | .managerMissing i => i == id
  | .mainRun i _ => i == id
  | _ => false

/-- The spec's C1 property, as a trace checker: every guard run must be
preceded by a save attempt whose `last_step_id` is that step's id ("persist
RunState pointing at this step id … before its guard runs"). `acc` carries the
most recent save attempt. -/
def specSaveBeforeGuard (acc : Option (Option String)) : List Event → Bool
  | [] => true
  | .saveState st _ :: rest => specSaveBeforeGuard (some st.lastStepId) rest
  | .guardRun id _ _ :: rest =>
      (acc == some (some id)) && specSaveBeforeGuard acc rest
  | _ :: rest => specSaveBeforeGuard acc rest

/-- The amended C1 property, as a trace checker: every execution action
(pre-script, package install / manager check, main script) of a step must be
preceded by a save attempt whose `last_step_id` is that step's id. -/
def execSaveCheck (acc : Option (Option String)) : List Event → Bool
  | [] => true
  | .saveState st _ :: rest => execSaveCheck (some st.lastStepId) rest
  | .preRun id _ :: rest => (acc == some (some id)) && execSaveCheck acc rest
  | .installRun id _ _ :: rest => (acc == some (some id)) && execSaveCheck acc rest
  | .managerMissing id :: rest => (acc == some (some id)) && execSaveCheck acc rest
  | .mainRun id _ :: rest => (acc == some (some id)) && execSaveCheck acc rest
  | _ :: rest => execSaveCheck acc rest

/-- Erase the outcome of save attempts from a trace: save events are
normalized and the failure warnings dropped. Two runs whose scrubbed traces
agree differ at most in whether their state writes succeeded. -/
def scrubSaves (t : List Event) : List Event :=
  t.filterMap (fun e =>
    match e with
    | .saveWarning => none
    | .saveState st _ => some (.saveState st true)
    | e => some e)

/-! ## Concrete instances used by witnesses and counterexamples -/

/-- An everything-succeeds oracle environment on a Linux host with pacman. -/
def envOk : ExecEnv :=
  { whenOk := fun _ => true
    preOk := fun _ => true
    mainOk := fun _ => true
    installOk := fun _ => true
    saveOk := fun _ => true
    managerFound := fun _ => true
    shellAvailable := fun _ => true
    decision := fun _ => .run
    aliases := ⟨fun _ => none⟩
    defaultManager := .pacman
    platform := .linux }

/-- A step with a guard script. -/
def stepG : Step :=
  { Step.simple "s1" [] with whenScript := some ⟨.bash, "test -f marker"⟩ }

/-- A step whose main script fails under `envMainFails`. -/
def stepM : Step :=
  { Step.simple "m1" [] with script := some ⟨.bash, "exit 1"⟩ }

/-- A plain step. -/
def stepP : Step := Step.simple "p1" []

/-- `envOk` with the main script of every step failing. -/
def envMainFails : ExecEnv := { envOk with mainOk := fun _ => false }

/-- `envOk` with every guard script failing. -/
def envGuardFails : ExecEnv := { envOk with whenOk := fun _ => false }

/-- Global alias table of the spec's merge example:
`pkg` ↦ `apt` → `x`, plus a global-only key `only` ↦ `apt` → `gx`. -/
def aliasGlobalEx : PackageAliases :=
  ⟨fun pkg =>
    if pkg = "pkg" then
      some (fun src => if src = .manager .apt then some "x" else none)
    else if pkg = "only" then
      some (fun src => if src = .manager .apt then some "gx" else none)
    else none⟩

/-- Local alias table of the spec's merge example:
`pkg` ↦ `apt` → `y`, `pacman` → `z`. -/
def aliasLocalEx : PackageAliases :=
  ⟨fun pkg =>
    if pkg = "pkg" then
      some (fun src =>
        if src = .manager .apt then some "y"
        else if src = .manager .pacman then some "z"
        else none)
    else none⟩

/-- An alias table with only a manager-keyed (not repository-keyed) entry for
`vim` under `yay`. -/
def aliasYayEx : PackageAliases :=
  ⟨fun pkg =>
    if pkg = "vim" then
      some (fun src => if src = .manager .yay then some "vim-mgr" else none)
    else none⟩

/-- An atom renaming that changes only the letter case of `ubuntu`. -/
def caseF : String → String := fun s => if s = "ubuntu" then "Ubuntu" else s

/-- Host facts of an Ubuntu box (the spec's OS-filter example). -/
def infoEx : OsInfo := ⟨.linux, some "ubuntu", ["debian"]⟩

/-- A step tagged `t`. -/
def stepT1 : Step := Step.simple "s1" ["t"]

/-- An untagged step. -/
def stepT2 : Step := Step.simple "s2" []

/-! ## Claim theorems -/

/-- C7: merging a global and a local alias table overlays the local entries
per abstract-name/source key — the merged entry for any (package, source) pair
is the local entry when one exists and the global entry otherwise (so local
wins key-by-key, not wholesale, and keys present only globally survive) — and
resolving a package with no entry for the resolved source returns the original
name unchanged. -/
theorem c7_alias_merge_key_by_key :
    (∀ (g l : PackageAliases) (pkg : String) (src : PackageSource),
       (g.merge l).entry pkg src =
         match l.entry pkg src with
         | some v => some v
         | none => g.entry pkg src)
    ∧ (∀ (a : PackageAliases) (pkg : String) (m : PackageManager),
         a.entry pkg (sourceForManager m) = none → a.resolve_name pkg m = pkg) := by
  constructor
  · intro g l pkg src
    unfold PackageAliases.merge PackageAliases.entry
    cases hl : l.find pkg with
    | none => cases hg : g.find pkg <;> simp [hl, hg]
    | some lm =>
        cases hg : g.find pkg with
        | none =>
            simp only [hl, hg, Option.bind_some]
            cases hsrc : lm src <;> simp [hsrc]
        | some gm =>
            simp only [hl, hg, Option.bind_some]
            cases hsrc : lm src <;> simp [hsrc]
  · intro a pkg m h
    unfold PackageAliases.resolve_name
    rw [h]
    rfl

/-- Witness for C7 at the spec's example: global `pkg ↦ apt → x` (plus a
global-only key), local `pkg ↦ apt → y, pacman → z`; merged resolution gives
`apt → y`, `pacman → z`, the global-only key survives, and an unknown package
passes through unchanged. -/
theorem c7_alias_merge_key_by_key_witness :
    (aliasGlobalEx.merge aliasLocalEx).entry "pkg" (.manager .apt) = some "y"
    ∧ (aliasGlobalEx.merge aliasLocalEx).entry "pkg" (.manager .pacman) = some "z"
    ∧ (aliasGlobalEx.merge aliasLocalEx).entry "only" (.manager .apt) = some "gx"
    ∧ (aliasGlobalEx.merge aliasLocalEx).resolve_name "htop" .apt = "htop" := by
  refine ⟨?_, ?_, ?_, ?_⟩
  · rw [c7_alias_merge_key_by_key.1]; decide
  · rw [c7_alias_merge_key_by_key.1]; decide
  · rw [c7_alias_merge_key_by_key.1]; decide
  · exact c7_alias_merge_key_by_key.2 _ "htop" .apt (by decide)

/-- C10: when the resolving manager belongs to the AUR repository (yay or
paru), alias resolution reads only the repository-keyed entry and falls back
to the original name — a manager-keyed entry is never consulted. -/
theorem c10_repo_manager_alias_lookup (a : PackageAliases) (pkg : String)
    (m : PackageManager) (h : m ∈ Repository.aur.get_package_managers) :
    a.resolve_name pkg m = (a.entry pkg (.repository .aur)).getD pkg := by
  have hm : m = .yay ∨ m = .paru := by
    simpa [Repository.get_package_managers] using h
  rcases hm with h | h <;> subst h <;> rfl

/-- Witness for C10: a table with only a manager-keyed `yay` entry for `vim`
still resolves `vim` under `yay` to the original name. -/
theorem c10_repo_manager_alias_lookup_witness :
    aliasYayEx.entry "vim" (.manager .yay) = some "vim-mgr"
    ∧ aliasYayEx.resolve_name "vim" .yay = "vim" := by
  constructor
  · decide
  · rw [c10_repo_manager_alias_lookup aliasYayEx "vim" .yay (by decide)]; decide

/-- C8 is false as stated: the atoms `A` and `a` agree after ASCII lowering
(a pure letter-case change), yet tag evaluation distinguishes them over the
tag set `[a]`. -/
theorem c8_counterexample :
    asciiLower "A" = asciiLower "a"
    ∧ eval_tags_expr (.var "A") ["a"] ≠ eval_tags_expr (.var "a") ["a"] := by
  constructor
  · decide
  · decide

/-- C8 (amended): atom case-insensitivity holds in the OS evaluator — any
renaming of atoms that preserves their ASCII-lowercase form preserves
`eval_os_expr` — while the tag evaluator compares an atom to the tag set by
exact (case-sensitive) string membership. -/
theorem c8_amended_atom_case (f : String → String) (e : Expr) (info : OsInfo)
    (hf : ∀ s, asciiLower (f s) = asciiLower s) :
    eval_os_expr (e.mapAtoms f) info = eval_os_expr e info
    ∧ ∀ (name : String) (tags : List String),
        eval_tags_expr (.var name) tags = tags.contains name := by
  constructor
  · induction e with
    | var s =>
        have hp : parse_term (f s) = parse_term s := by
          unfold parse_term
          rw [hf s]
        simp [Expr.mapAtoms, eval_os_expr, hp]
    | not e ih => simp [Expr.mapAtoms, eval_os_expr, ih]
    | and a b iha ihb => simp [Expr.mapAtoms, eval_os_expr, iha, ihb]
    | or a b iha ihb => simp [Expr.mapAtoms, eval_os_expr, iha, ihb]
  · intro name tags
    rfl

/-- Witness for amended C8: changing `ubuntu` to `Ubuntu` does not change OS
evaluation on an Ubuntu host, where the atom evaluates to true. -/
theorem c8_amended_atom_case_witness :
    eval_os_expr ((Expr.var "ubuntu").mapAtoms caseF) infoEx =
      eval_os_expr (.var "ubuntu") infoEx
    ∧ eval_os_expr ((Expr.var "ubuntu").mapAtoms caseF) infoEx = true := by
  have hf : ∀ s, asciiLower (caseF s) = asciiLower s := by
    intro s
    by_cases hs : s = "ubuntu"
    · subst hs; decide
    · simp [caseF, hs]
  have h := c8_amended_atom_case caseF (.var "ubuntu") infoEx hf
  exact ⟨h.1, by decide⟩

/-- C3 is false as stated: over the pool `[s1 (tagged t), s2 (untagged)]` the
tag filter `!t` matches exactly `[s2]`, but filtering that matching set by the
same expression again fails tag validation (the atom `t` no longer occurs)
instead of returning the same set. -/
theorem c3_counterexample :
    filter_by_tags [stepT1, stepT2] (.not (.var "t")) =
      .ok ⟨[stepT2], [stepT1]⟩
    ∧ filter_by_tags [stepT2] (.not (.var "t")) = .error "Unknown tags: t" := by
  constructor
  · decide
  · decide

/-- C3 (amended): the OS filter is idempotent on its matching set; the tag
filter re-applied to its matching set returns that same set (with nothing
excluded) whenever its tag-existence validation succeeds on that set — but
that validation can fail (atoms occurring only in removed steps), in which
case re-filtering errors. -/
theorem c3_amended_idempotent :
    (∀ (steps : List Step) (info : OsInfo),
       filter_by_os (filter_by_os steps info).matching info =
         ⟨(filter_by_os steps info).matching, []⟩)
    ∧ (∀ (steps : List Step) (e : Expr) (r : FilterResult),
         filter_by_tags steps e = .ok r →
         check_tags_exist r.matching e.varsList = .ok () →
         filter_by_tags r.matching e = .ok ⟨r.matching, []⟩) := by
  constructor
  · intro steps info
    unfold filter_by_os
    congr 1
    · exact List.filter_eq_self.mpr (fun a ha => (List.mem_filter.mp ha).2)
    · rw [List.filter_eq_nil_iff]
      intro a ha
      simp [(List.mem_filter.mp ha).2]
  · intro steps e r h1 h2
    have hm : r.matching = steps.filter (fun s => eval_tags_expr e s.tags) := by
      unfold filter_by_tags at h1
      cases hc : check_tags_exist steps e.varsList with
      | error msg => rw [hc] at h1; exact Except.noConfusion h1
      | ok u =>
          cases u
          rw [hc] at h1
          cases h1
          rfl
    unfold filter_by_tags
    rw [h2]
    dsimp only
    congr 1
    congr 1
    · rw [hm]
      exact List.filter_eq_self.mpr (fun a ha => (List.mem_filter.mp ha).2)
    · rw [hm, List.filter_eq_nil_iff]
      intro a ha
      simp [(List.mem_filter.mp ha).2]

/-- The id map of `filter_by_ids` computed as a reverse find: the last pool
entry with a given id wins. -/
theorem hmGet_eq_find (steps : List Step) (id : String) :
    hmGet steps id = steps.reverse.find? (fun s => s.id = id) := by
  have aux : ∀ (l : List Step) (acc : Option Step),
      l.foldl (fun acc s => if s.id = id then some s else acc) acc
        = (l.reverse.find? (fun s => s.id = id)).or acc := by
    intro l
    induction l with
    | nil => intro acc; simp
    | cons hd tl ih =>
        intro acc
        simp only [List.foldl_cons, List.reverse_cons, List.find?_append]
        rw [ih]
        cases htl : tl.reverse.find? (fun s => decide (s.id = id)) with
        | some s => simp
        | none =>
            simp only [Option.none_or]
            by_cases h : hd.id = id
            · simp [h]
            · simp [h]
  rw [hmGet, aux steps none, Option.or_none]

/-- A successful id lookup returns a step carrying that id. -/
theorem hmGet_id (steps : List Step) (id : String) (s : Step)
    (h : hmGet steps id = some s) : s.id = id := by
  rw [hmGet_eq_find] at h
  simpa using List.find?_some h

/-- A successful id lookup returns a step of the pool. -/
theorem hmGet_mem (steps : List Step) (id : String) (s : Step)
    (h : hmGet steps id = some s) : s ∈ steps := by
  rw [hmGet_eq_find] at h
  exact List.mem_reverse.mp (List.mem_of_find?_eq_some h)

/-- The id lookup fails exactly on ids carried by no pool step. -/
theorem hmGet_eq_none_iff (steps : List Step) (id : String) :
    hmGet steps id = none ↔ ∀ s ∈ steps, s.id ≠ id := by
  rw [hmGet_eq_find, List.find?_eq_none]
  constructor
  · intro h s hs
    simpa using h s (List.mem_reverse.mpr hs)
  · intro h s hs
    simpa using h s (List.mem_reverse.mp hs)

/-- When every requested id resolves, mapping ids through the lookup and back
to ids is the identity. -/
theorem filterMap_hmGet_map_id (steps : List Step) (ids : List String)
    (h : ∀ id ∈ ids, (hmGet steps id).isSome) :
    (ids.filterMap (hmGet steps)).map Step.id = ids := by
  induction ids with
  | nil => rfl
  | cons id rest ih =>
      have hs : (hmGet steps id).isSome := h id (List.mem_cons_self id rest)
      obtain ⟨s, hget⟩ := Option.isSome_iff_exists.mp hs
      rw [List.filterMap_cons, hget]
      simp only [List.map_cons]
      rw [hmGet_id steps id s hget,
        ih (fun i hi => h i (List.mem_cons_of_mem id hi))]

/-- C5: explicit step-id selection returns the pool steps reordered to the
requested id order (discarding unspecified steps); if some requested id is
absent from the pool it fails with an error listing all the unknown ids and
selects nothing. -/
theorem c5_filter_by_ids_spec (steps : List Step) (ids : List String)
    (hne : ids ≠ []) :
    ((∀ id ∈ ids, ∃ s ∈ steps, s.id = id) →
       ∃ r, filter_by_ids steps ids = .ok r
         ∧ r.matching.map Step.id = ids
         ∧ ∀ s ∈ r.matching, s ∈ steps)
    ∧ ((∃ id ∈ ids, ∀ s ∈ steps, s.id ≠ id) →
        filter_by_ids steps ids =
          .error ("Unknown steps: " ++ String.intercalate ", "
            (ids.filter (fun id => (hmGet steps id).isNone)))) := by
  constructor
  · intro h
    have hsome : ∀ id ∈ ids, (hmGet steps id).isSome := by
      intro id hid
      obtain ⟨s, hs, hsid⟩ := h id hid
      rw [hmGet_eq_find]
      exact List.find?_isSome.mpr ⟨s, List.mem_reverse.mpr hs, by simp [hsid]⟩
    have hempty : (ids.filter (fun id => (hmGet steps id).isNone)).isEmpty := by
      rw [List.isEmpty_iff, List.filter_eq_nil_iff]
      intro id hid
      simp [Option.isNone_iff_eq_none,
        Option.isSome_iff_ne_none.mp (hsome id hid)]
    refine ⟨⟨ids.filterMap (hmGet steps),
      (steps.filter (fun s => hmGet steps s.id = some s)).filter
        (fun s => !ids.contains s.id)⟩, ?_, ?_, ?_⟩
    · unfold filter_by_ids
      rw [if_pos hempty]
    · exact filterMap_hmGet_map_id steps ids hsome
    · intro s hs
      obtain ⟨id, _, hget⟩ := List.mem_filterMap.mp hs
      exact hmGet_mem steps id s hget
  · intro h
    obtain ⟨bad, hbad, hnone⟩ := h
    have hmem : bad ∈ ids.filter (fun id => (hmGet steps id).isNone) := by
      rw [List.mem_filter]
      exact ⟨hbad, by simp [(hmGet_eq_none_iff steps bad).mpr hnone]⟩
    have hne2 : ¬(ids.filter (fun id => (hmGet steps id).isNone)).isEmpty := by
      rw [List.isEmpty_iff]
      intro hnil
      rw [hnil] at hmem
      exact List.not_mem_nil bad hmem
    unfold filter_by_ids
    rw [if_neg hne2]

/-- Witness for C5 at the spec's example: ids `[b, a]` over pool `[a, b, c]`
yield the order `[b, a]`; the unknown id `d` fails listing `d`. -/
theorem c5_filter_by_ids_spec_witness :
    (∃ r, filter_by_ids
        [Step.simple "a" [], Step.simple "b" [], Step.simple "c" []]
        ["b", "a"] = .ok r
      ∧ r.matching.map Step.id = ["b", "a"]
      ∧ ∀ s ∈ r.matching,
          s ∈ [Step.simple "a" [], Step.simple "b" [], Step.simple "c" []])
    ∧ filter_by_ids
        [Step.simple "a" [], Step.simple "b" [], Step.simple "c" []] ["d"] =
          .error "Unknown steps: d" := by
  constructor
  · exact (c5_filter_by_ids_spec _ _ (by decide)).1 (by decide)
  · have h := (c5_filter_by_ids_spec
      [Step.simple "a" [], Step.simple "b" [], Step.simple "c" []] ["d"]
      (by decide)).2 (by decide)
    rw [h]
    decide

/-- What a successful `findIdx?` on step ids says about the split point: no
step before the found index carries the id, and the step at the index does. -/
theorem findIdx_split (steps : List Step) (startId : String) (pos : Nat)
    (h : steps.findIdx? (fun s => s.id = startId) = some pos) :
    (∀ s ∈ steps.take pos, s.id ≠ startId)
    ∧ (steps.drop pos).head?.map Step.id = some startId := by
  induction steps generalizing pos with
  | nil => exact Option.noConfusion h
  | cons hd tl ih =>
      rw [List.findIdx?_cons] at h
      by_cases hhd : hd.id = startId
      · rw [if_pos (by simp [hhd])] at h
        cases h
        exact ⟨by simp, by simp [hhd]⟩
      · rw [if_neg (by simp [hhd]), List.findIdx?_succ] at h
        obtain ⟨pos', hpos', rfl⟩ := Option.map_eq_some'.mp h
        obtain ⟨h1, h2⟩ := ih pos' hpos'
        refine ⟨?_, by simpa using h2⟩
        intro s hs
        rw [List.take_succ_cons] at hs
        rcases List.mem_cons.mp hs with rfl | hs'
        · exact hhd
        · exact h1 s hs'

/-- C9: the resume start-point filter keeps every step from the first one
carrying the start id onward (inclusive, original order) as matching and
returns every earlier step as skipped; a start id absent from the list is a
fatal error. -/
theorem c9_start_point_filter (steps : List Step) (startId : String) :
    ((∃ s ∈ steps, s.id = startId) →
       ∃ r, filter_steps_start_with_id steps startId = .ok r
         ∧ r.notMatching ++ r.matching = steps
         ∧ (∀ s ∈ r.notMatching, s.id ≠ startId)
         ∧ r.matching.head?.map Step.id = some startId)
    ∧ ((∀ s ∈ steps, s.id ≠ startId) →
        filter_steps_start_with_id steps startId =
          .error ("Start step '" ++ startId ++ "' not found in file")) := by
  constructor
  · intro h
    obtain ⟨s, hs, hsid⟩ := h
    have hpos : steps.findIdx? (fun s => s.id = startId) =
        some (steps.findIdx (fun s => s.id = startId)) :=
      List.findIdx?_eq_some_of_exists ⟨s, hs, by simp [hsid]⟩
    set pos := steps.findIdx (fun s => s.id = startId) with hposdef
    obtain ⟨h1, h2⟩ := findIdx_split steps startId pos hpos
    refine ⟨⟨steps.drop pos, steps.take pos⟩, ?_, ?_, h1, h2⟩
    · unfold filter_steps_start_with_id
      rw [hpos]
    · exact List.take_append_drop pos steps
  · intro h
    have hnone : steps.findIdx? (fun s => s.id = startId) = none := by
      rw [List.findIdx?_eq_none_iff]
      intro s hs
      simp [h s hs]
    unfold filter_steps_start_with_id
    rw [hnone]

/-- Witness for C9 at the spec's example: `[a, b, c]` with start `b` yields
matching `[b, c]` and skipped `[a]`; a missing start id fails. -/
theorem c9_start_point_filter_witness :
    (∃ r, filter_steps_start_with_id
        [Step.simple "a" [], Step.simple "b" [], Step.simple "c" []] "b" = .ok r
      ∧ r.notMatching ++ r.matching =
          [Step.simple "a" [], Step.simple "b" [], Step.simple "c" []]
      ∧ (∀ s ∈ r.notMatching, s.id ≠ "b")
      ∧ r.matching.head?.map Step.id = some "b")
    ∧ filter_steps_start_with_id
        [Step.simple "a" [], Step.simple "b" [], Step.simple "c" []] "z" =
          .error "Start step 'z' not found in file" := by
  constructor
  · exact (c9_start_point_filter _ "b").1 (by decide)
  · have h := (c9_start_point_filter
      [Step.simple "a" [], Step.simple "b" [], Step.simple "c" []] "z").2
      (by decide)
    rw [h]
    decide

/-- Resolving a step's package aliases does not change its id. -/
theorem resolveStep_id (env : ExecEnv) (s : Step) : (resolveStep env s).id = s.id := rfl

/-- `accAfter` distributes over trace concatenation. -/
theorem accAfter_append (acc : Option (Option String)) (t1 t2 : List Event) :
    accAfter acc (t1 ++ t2) = accAfter (accAfter acc t1) t2 := by
  simp [accAfter, List.foldl_append]

/-- `lastPersisted` distributes over trace concatenation. -/
theorem lastPersisted_append (acc : Option (Option String)) (t1 t2 : List Event) :
    lastPersisted acc (t1 ++ t2) = lastPersisted (lastPersisted acc t1) t2 := by
  simp [lastPersisted, List.foldl_append]

/-- `execSaveCheck` over a concatenation: check the first part, then the
second from the save state the first part leaves behind. -/
theorem execSaveCheck_append (acc : Option (Option String)) (t1 t2 : List Event) :
    execSaveCheck acc (t1 ++ t2) =
      (execSaveCheck acc t1 && execSaveCheck (accAfter acc t1) t2) := by
  induction t1 generalizing acc with
  | nil => simp [execSaveCheck, accAfter]
  | cons e rest ih =>
      cases e <;>
        simp [execSaveCheck, accAfter, List.foldl_cons, ih, Bool.and_assoc]

/-- A save block always passes the checker. -/
theorem execSaveCheck_saveEvents (env : ExecEnv) (st : RunStateV)
    (acc : Option (Option String)) :
    execSaveCheck acc (saveEvents env st) = true := by
  unfold saveEvents
  split <;> simp [execSaveCheck]

/-- A save block leaves the last save attempt at its state. -/
theorem accAfter_saveEvents (env : ExecEnv) (st : RunStateV)
    (acc : Option (Option String)) :
    accAfter acc (saveEvents env st) = some st.lastStepId := by
  unfold saveEvents
  split <;> simp [accAfter]

/-- A save block persists its state exactly when the write succeeds. -/
theorem lastPersisted_saveEvents (env : ExecEnv) (st : RunStateV)
    (acc : Option (Option String)) :
    lastPersisted acc (saveEvents env st) =
      if env.saveOk st then some st.lastStepId else acc := by
  unfold saveEvents
  split <;> rename_i h <;> simp [lastPersisted, h]

/-- All pre-script events belong to the step. -/
theorem preEvents_exec (env : ExecEnv) (step : Step) :
    ∀ e ∈ (preEvents env step).1, e.isExecOf step.id = true := by
  cases h : step.preScript <;> simp [preEvents, h, Event.isExecOf]

/-- All package events belong to the step. -/
theorem installEvents_exec (env : ExecEnv) (step : Step) :
    ∀ e ∈ (installEvents env step).1, e.isExecOf step.id = true := by
  unfold installEvents
  split
  · simp
  · split <;> simp [Event.isExecOf]

/-- All main-script events belong to the step. -/
theorem mainEvents_exec (env : ExecEnv) (step : Step) :
    ∀ e ∈ (mainEvents env step).1, e.isExecOf step.id = true := by
  cases h : step.script <;> simp [mainEvents, h, Event.isExecOf]

/-- All events of `run_step` are execution events of the step. -/
theorem run_step_exec (env : ExecEnv) (step : Step) :
    ∀ e ∈ (run_step env step).1, e.isExecOf step.id = true := by
  intro e he
  unfold run_step at he
  split at he
  · split at he
    · rcases List.mem_append.mp he with h | h
      · rcases List.mem_append.mp h with h' | h'
        · exact preEvents_exec env step e h'
        · exact installEvents_exec env step e h'
      · exact mainEvents_exec env step e h
    · rcases List.mem_append.mp he with h | h
      · exact preEvents_exec env step e h
      · exact installEvents_exec env step e h
  · exact preEvents_exec env step e he

/-- Execution events of a step pass the checker when the last save attempt
points at that step. -/
theorem execSaveCheck_of_exec (x : String) (t : List Event)
    (h : ∀ e ∈ t, e.isExecOf x = true) :
    execSaveCheck (some (some x)) t = true := by
  induction t with
  | nil => rfl
  | cons e rest ih =>
      have he := h e (List.mem_cons_self e rest)
      have hrest := ih (fun e' he' => h e' (List.mem_cons_of_mem e he'))
      cases e <;> simp_all [Event.isExecOf, execSaveCheck]

/-- Execution events contain no saves, so they leave the save state alone. -/
theorem accAfter_of_exec (x : String) (t : List Event)
    (h : ∀ e ∈ t, e.isExecOf x = true) (acc : Option (Option String)) :
    accAfter acc t = acc := by
  induction t generalizing acc with
  | nil => rfl
  | cons e rest ih =>
      have he := h e (List.mem_cons_self e rest)
      have hrest := fun acc => ih (fun e' he' => h e' (List.mem_cons_of_mem e he')) acc
      cases e <;> simp_all [Event.isExecOf, accAfter]

/-- Execution events contain no saves, so they persist nothing. -/
theorem lastPersisted_of_exec (x : String) (t : List Event)
    (h : ∀ e ∈ t, e.isExecOf x = true) (acc : Option (Option String)) :
    lastPersisted acc t = acc := by
  induction t generalizing acc with
  | nil => rfl
  | cons e rest ih =>
      have he := h e (List.mem_cons_self e rest)
      have hrest := fun acc => ih (fun e' he' => h e' (List.mem_cons_of_mem e he')) acc
      cases e <;> simp_all [Event.isExecOf, lastPersisted]

/-- `execPart` preserves the save discipline: starting from a save attempt at
this step's id, its trace passes the checker, and when it finishes through the
continuation the save state is whatever the continuation guarantees. -/
theorem execPart_check (env : ExecEnv) (step : Step) (c : List Event × RunResult)
    (hc : ∀ acc, execSaveCheck acc c.1 = true
      ∧ (c.2 = .finished → accAfter acc c.1 = some none)) :
    execSaveCheck (some (some step.id)) (execPart env step c).1 = true
    ∧ ((execPart env step c).2 = .finished →
        accAfter (some (some step.id)) (execPart env step c).1 = some none) := by
  unfold execPart
  rcases hrs : run_step env step with ⟨ee, ok⟩
  have hee : ∀ e ∈ ee, e.isExecOf step.id = true := by
    have := run_step_exec env step
    rw [hrs] at this
    exact this
  cases ok with
  | true =>
      simp only [if_pos trivial]
      constructor
      · rw [execSaveCheck_append, execSaveCheck_of_exec step.id ee hee,
          accAfter_of_exec step.id ee hee]
        exact (hc (some (some step.id))).1
      · intro hfin
        rw [accAfter_append, accAfter_of_exec step.id ee hee]
        exact (hc (some (some step.id))).2 hfin
  | false =>
      simp only [if_neg not_false]
      exact ⟨execSaveCheck_of_exec step.id ee hee, fun h => RunResult.noConfusion h⟩

/-- `stepBody` preserves the save discipline for any start state. -/
theorem stepBody_check (env : ExecEnv) (step : Step) (i : Bool)
    (cS cF : List Event × RunResult)
    (hS : ∀ acc, execSaveCheck acc cS.1 = true
      ∧ (cS.2 = .finished → accAfter acc cS.1 = some none))
    (hF : ∀ acc, execSaveCheck acc cF.1 = true
      ∧ (cF.2 = .finished → accAfter acc cF.1 = some none))
    (acc : Option (Option String)) :
    execSaveCheck acc (stepBody env step i cS cF).1 = true
    ∧ ((stepBody env step i cS cF).2 = .finished →
        accAfter acc (stepBody env step i cS cF).1 = some none) := by
  have hsave : accAfter acc (saveEvents env ⟨some step.id, i⟩) = some (some step.id) :=
    accAfter_saveEvents env ⟨some step.id, i⟩ acc
  have hexecS := execPart_check env step cS hS
  have hexecF := execPart_check env step cF hF
  unfold stepBody
  split
  · cases hdec : env.decision step with
    | run =>
        unfold prependEvents
        constructor
        · rw [execSaveCheck_append, execSaveCheck_saveEvents, hsave]
          simpa using hexecS.1
        · intro hfin
          rw [accAfter_append, hsave]
          exact hexecS.2 hfin
    | skip =>
        unfold prependEvents
        constructor
        · rw [execSaveCheck_append, execSaveCheck_saveEvents, hsave]
          simpa using (hS (some (some step.id))).1
        · intro hfin
          rw [accAfter_append, hsave]
          exact (hS (some (some step.id))).2 hfin
    | abort =>
        exact ⟨execSaveCheck_saveEvents env _ acc, fun h => RunResult.noConfusion h⟩
    | leaveInteractiveMode =>
        unfold prependEvents
        constructor
        · rw [execSaveCheck_append, execSaveCheck_saveEvents, hsave]
          simpa using hexecF.1
        · intro hfin
          rw [accAfter_append, hsave]
          exact hexecF.2 hfin
  · unfold prependEvents
    constructor
    · rw [execSaveCheck_append, execSaveCheck_saveEvents, hsave]
      simpa using hexecS.1
    · intro hfin
      rw [accAfter_append, hsave]
      exact hexecS.2 hfin

/-- C1 is false as stated: on a live one-step run whose step has a guard, the
engine runs the guard first and only then saves `RunState` at that step's id,
so no save pointing at the step precedes its guard. -/
theorem c1_counterexample :
    (runLoop envOk false [stepG]).1 =
      [Event.guardRun "s1" false true,
       Event.saveState ⟨some "s1", false⟩ true,
       Event.saveState ⟨none, false⟩ true]
    ∧ specSaveBeforeGuard none (runLoop envOk false [stepG]).1 = false := by
  constructor
  · decide
  · decide

/-- C1 (amended): for every live run, the engine attempts to persist
`RunState` pointing at the current step's id after that step's guard has
passed (or was absent) and before any of the step's execution actions
(pre-script, package handling, main script) — every execution event in the
trace is preceded by a save attempt at its step's id — and when the loop
completes all steps normally, the final save attempt carries last step id =
none. -/
theorem c1_save_discipline (env : ExecEnv) (i : Bool) (steps : List Step) :
    (∀ acc, execSaveCheck acc (runLoop env i steps).1 = true)
    ∧ ((runLoop env i steps).2 = .finished →
        ∀ acc, accAfter acc (runLoop env i steps).1 = some none) := by
  induction steps generalizing i with
  | nil =>
      constructor
      · intro acc
        exact execSaveCheck_saveEvents env ⟨none, i⟩ acc
      · intro _ acc
        exact accAfter_saveEvents env ⟨none, i⟩ acc
  | cons s rest ih =>
      have hS : ∀ acc, execSaveCheck acc (runLoop env i rest).1 = true
          ∧ ((runLoop env i rest).2 = .finished →
              accAfter acc (runLoop env i rest).1 = some none) :=
        fun acc => ⟨(ih i).1 acc, fun h => (ih i).2 h acc⟩
      have hF : ∀ acc, execSaveCheck acc (runLoop env false rest).1 = true
          ∧ ((runLoop env false rest).2 = .finished →
              accAfter acc (runLoop env false rest).1 = some none) :=
        fun acc => ⟨(ih false).1 acc, fun h => (ih false).2 h acc⟩
      show (∀ acc, execSaveCheck acc (runLoop env i (s :: rest)).1 = true) ∧ _
      rw [runLoop]
      cases hws : (resolveStep env s).whenScript with
      | none =>
          exact ⟨fun acc => (stepBody_check env (resolveStep env s) i _ _ hS hF acc).1,
            fun hfin acc => (stepBody_check env (resolveStep env s) i _ _ hS hF acc).2 hfin⟩
      | some w =>
          cases hwo : env.whenOk (resolveStep env s) with
          | true =>
              rw [if_pos rfl]
              unfold prependEvents
              constructor
              · intro acc
                rw [execSaveCheck_append]
                have hguard : execSaveCheck acc [Event.guardRun (resolveStep env s).id false true] = true := by
                  simp [execSaveCheck]
                have haccg : accAfter acc [Event.guardRun (resolveStep env s).id false true] = acc := by
                  simp [accAfter]
                rw [hguard, haccg]
                simpa using (stepBody_check env (resolveStep env s) i _ _ hS hF acc).1
              · intro hfin acc
                have haccg : accAfter acc [Event.guardRun (resolveStep env s).id false true] = acc := by
                  simp [accAfter]
                rw [accAfter_append, haccg]
                refine (stepBody_check env (resolveStep env s) i _ _ hS hF acc).2 ?_
                simpa [prependEvents] using hfin
          | false =>
              rw [if_neg (by simp)]
              unfold prependEvents
              constructor
              · intro acc
                rw [execSaveCheck_append]
                have hguard : execSaveCheck acc
                    [Event.guardRun (resolveStep env s).id false false,
                     Event.skipLogged (resolveStep env s).id] = true := by
                  simp [execSaveCheck]
                have haccg : accAfter acc
                    [Event.guardRun (resolveStep env s).id false false,
                     Event.skipLogged (resolveStep env s).id] = acc := by
                  simp [accAfter]
                rw [hguard, haccg]
                simpa using (hS acc).1
              · intro hfin acc
                have haccg : accAfter acc
                    [Event.guardRun (resolveStep env s).id false false,
                     Event.skipLogged (resolveStep env s).id] = acc := by
                  simp [accAfter]
                rw [accAfter_append, haccg]
                exact (hS acc).2 (by simpa [prependEvents] using hfin)

/-- Witness for amended C1 on a concrete one-step run: the trace satisfies the
save-before-execution discipline and, the run having finished, its final save
attempt carries last step id = none. -/
theorem c1_save_discipline_witness :
    execSaveCheck none (runLoop envOk false [stepG]).1 = true
    ∧ accAfter none (runLoop envOk false [stepG]).1 = some none := by
  have h := c1_save_discipline envOk false [stepG]
  exact ⟨h.1 none, h.2 (by decide) none⟩

/-- C2: during live execution a guard failure is soft — the step is logged as
skipped and the loop continues with the next step — while a hard failure of
the step's execution (pre-script failure, absent package manager,
install-command failure, or main-script failure: the last conjunct
characterizes the failure modes exactly) aborts the run immediately: the whole
run result is `.failed`, the trace ends at the failed step and does not depend
on the remaining steps, and the persisted RunState (when its write succeeded)
still points at the failed step. -/
theorem c2_guard_soft_exec_hard (env : ExecEnv) (i : Bool) (s : Step)
    (rest : List Step) :
    ((resolveStep env s).whenScript.isSome = true →
       env.whenOk (resolveStep env s) = false →
       runLoop env i (s :: rest) =
         (Event.guardRun s.id false false :: Event.skipLogged s.id ::
            (runLoop env i rest).1, (runLoop env i rest).2))
    ∧ ((∀ w, (resolveStep env s).whenScript = some w →
          env.whenOk (resolveStep env s) = true) →
       (run_step env (resolveStep env s)).2 = false →
       runLoop env false (s :: rest) =
         ((if (resolveStep env s).whenScript.isSome
             then [Event.guardRun s.id false true] else [])
           ++ (saveEvents env ⟨some s.id, false⟩
           ++ (run_step env (resolveStep env s)).1), .failed)
       ∧ (env.saveOk ⟨some s.id, false⟩ = true →
           lastPersisted none (runLoop env false (s :: rest)).1 = some (some s.id)))
    ∧ ((run_step env (resolveStep env s)).2 = false ↔
         ((preEvents env (resolveStep env s)).2 = false
          ∨ ((preEvents env (resolveStep env s)).2 = true
             ∧ (installEvents env (resolveStep env s)).2 = false)
          ∨ ((preEvents env (resolveStep env s)).2 = true
             ∧ (installEvents env (resolveStep env s)).2 = true
             ∧ (mainEvents env (resolveStep env s)).2 = false))) := by
  refine ⟨?_, ?_, ?_⟩
  · intro hws hwo
    obtain ⟨w, hw⟩ := Option.isSome_iff_exists.mp hws
    simp only [runLoop]
    rw [hw]
    dsimp only
    rw [if_neg (by simp [hwo])]
    simp [prependEvents, resolveStep_id]
  · intro hguard hfail
    have heq : runLoop env false (s :: rest) =
        ((if (resolveStep env s).whenScript.isSome
            then [Event.guardRun s.id false true] else [])
          ++ (saveEvents env ⟨some s.id, false⟩
          ++ (run_step env (resolveStep env s)).1), .failed) := by
      simp only [runLoop]
      rcases hrs : run_step env (resolveStep env s) with ⟨ee, ok⟩
      rw [hrs] at hfail
      dsimp at hfail
      subst hfail
      cases hws : (resolveStep env s).whenScript with
      | none =>
          simp only [hws, Option.isSome_none, Bool.false_eq_true, if_false]
          unfold stepBody
          rw [if_neg (by simp)]
          unfold prependEvents execPart
          rw [hrs]
          simp [resolveStep_id]
      | some w =>
          have hwo := hguard w hws
          simp only [hws, Option.isSome_some, if_true]
          rw [if_pos hwo]
          unfold stepBody
          rw [if_neg (by simp)]
          unfold prependEvents execPart
          rw [hrs]
          simp [resolveStep_id]
    refine ⟨heq, fun hsave => ?_⟩
    rw [heq]
    dsimp only
    rw [lastPersisted_append, lastPersisted_append]
    have hg : lastPersisted none
        (if (resolveStep env s).whenScript.isSome
           then [Event.guardRun s.id false true] else []) = none := by
      split <;> simp [lastPersisted]
    rw [hg, lastPersisted_saveEvents, if_pos hsave]
    exact lastPersisted_of_exec s.id _ (run_step_exec env (resolveStep env s)) _
  · cases hpre : (preEvents env (resolveStep env s)).2 <;>
      cases hinst : (installEvents env (resolveStep env s)).2 <;>
      cases hmain : (mainEvents env (resolveStep env s)).2 <;>
      simp [run_step, hpre, hinst, hmain]

/-- Witness for C2: a failing main script on the first of two steps yields a
`.failed` run whose persisted state points at that step, and a failing guard
on the first of two steps skips it and continues with the second. -/
theorem c2_guard_soft_exec_hard_witness :
    (runLoop envMainFails false [stepM, stepP]).2 = .failed
    ∧ lastPersisted none (runLoop envMainFails false [stepM, stepP]).1 =
        some (some "m1")
    ∧ runLoop envGuardFails false [stepG, stepP] =
        (Event.guardRun "s1" false false :: Event.skipLogged "s1" ::
           (runLoop envGuardFails false [stepP]).1,
         (runLoop envGuardFails false [stepP]).2) := by
  have hhard := (c2_guard_soft_exec_hard envMainFails false stepM [stepP]).2.1
    (fun w hw => Option.noConfusion hw) (by decide)
  have hsoft := (c2_guard_soft_exec_hard envGuardFails false stepG [stepP]).1
    (by decide) (by decide)
  refine ⟨?_, ?_, hsoft⟩
  · rw [hhard.1]
  · exact hhard.2 (by decide)

/-- `scrubSaves` distributes over concatenation. -/
theorem scrubSaves_append (t1 t2 : List Event) :
    scrubSaves (t1 ++ t2) = scrubSaves t1 ++ scrubSaves t2 := by
  simp [scrubSaves, List.filterMap_append]

/-- Scrubbing a save block forgets whether the write succeeded. -/
theorem scrubSaves_saveEvents (env : ExecEnv) (st : RunStateV) :
    scrubSaves (saveEvents env st) = [.saveState st true] := by
  unfold saveEvents
  split <;> simp [scrubSaves]

/-- Scrubbing passes guard events through. -/
theorem scrubSaves_cons_guard (id : String) (sink ok : Bool) (t : List Event) :
    scrubSaves (Event.guardRun id sink ok :: t) =
      Event.guardRun id sink ok :: scrubSaves t := by
  simp [scrubSaves]

/-- Scrubbing passes skip logs through. -/
theorem scrubSaves_cons_skip (id : String) (t : List Event) :
    scrubSaves (Event.skipLogged id :: t) =
      Event.skipLogged id :: scrubSaves t := by
  simp [scrubSaves]

/-- `run_step` never consults the state saver. -/
theorem run_step_saveOk (env : ExecEnv) (f g : RunStateV → Bool) (step : Step) :
    run_step {env with saveOk := f} step = run_step {env with saveOk := g} step := rfl

/-- `stepBody` under two different state savers: same outcome and same
scrubbed trace, given continuations related the same way. -/
theorem stepBody_scrub (env : ExecEnv) (f g : RunStateV → Bool) (step : Step)
    (i : Bool) (cS1 cF1 cS2 cF2 : List Event × RunResult)
    (hS : cS1.2 = cS2.2 ∧ scrubSaves cS1.1 = scrubSaves cS2.1)
    (hF : cF1.2 = cF2.2 ∧ scrubSaves cF1.1 = scrubSaves cF2.1) :
    (stepBody {env with saveOk := f} step i cS1 cF1).2 =
      (stepBody {env with saveOk := g} step i cS2 cF2).2
    ∧ scrubSaves (stepBody {env with saveOk := f} step i cS1 cF1).1 =
        scrubSaves (stepBody {env with saveOk := g} step i cS2 cF2).1 := by
  rcases hrs : run_step {env with saveOk := f} step with ⟨ee, ok⟩
  have hrs2 : run_step {env with saveOk := g} step = (ee, ok) := by
    rw [← run_step_saveOk env f g step]
    exact hrs
  unfold stepBody prependEvents execPart
  dsimp only
  rw [hrs, hrs2]
  cases i with
  | false =>
      cases ok <;>
        simp [scrubSaves_append, scrubSaves_saveEvents, hS.1, hS.2]
  | true =>
      cases hdec : env.decision step <;> cases ok <;>
        simp [scrubSaves_append, scrubSaves_saveEvents, hS.1, hS.2, hF.1, hF.2]

/-- C4 (amended): a RunState write failure during execution is soft — the run
outcome and every non-persistence action are unchanged whatever the saver
does, and a failed save only adds a warning to the log — while invoking the
resume command with no existing run-state (absent or unparsable state file)
prints a "nothing to resume" notice and returns success without starting any
run. -/
theorem c4_soft_persistence_resume_notice :
    (∀ (env : ExecEnv) (f g : RunStateV → Bool) (i : Bool) (steps : List Step),
       (runLoop {env with saveOk := f} i steps).2 =
         (runLoop {env with saveOk := g} i steps).2
       ∧ scrubSaves (runLoop {env with saveOk := f} i steps).1 =
           scrubSaves (runLoop {env with saveOk := g} i steps).1)
    ∧ (∀ (env : ExecEnv) (st : RunStateV), env.saveOk st = false →
         saveEvents env st = [.saveState st false, .saveWarning])
    ∧ (∀ (msg : String) (args : ResumeArgs),
         resume_handle (.error msg) args = .ok .nothingToResume) := by
  refine ⟨?_, ?_, ?_⟩
  · intro env f g i steps
    induction steps generalizing i with
    | nil => exact ⟨rfl, by simp [runLoop, scrubSaves_saveEvents]⟩
    | cons s rest ih =>
        have hres : resolveStep {env with saveOk := g} s =
            resolveStep {env with saveOk := f} s := rfl
        simp only [runLoop]
        rw [hres]
        cases hws : (resolveStep {env with saveOk := f} s).whenScript with
        | none => exact stepBody_scrub env f g _ i _ _ _ _ (ih i) (ih false)
        | some w =>
            have hwo : ({env with saveOk := g} : ExecEnv).whenOk
                (resolveStep {env with saveOk := f} s) =
              ({env with saveOk := f} : ExecEnv).whenOk
                (resolveStep {env with saveOk := f} s) := rfl
            rw [hwo]
            cases hWhen : ({env with saveOk := f} : ExecEnv).whenOk
                (resolveStep {env with saveOk := f} s) with
            | true =>
                rw [if_pos rfl, if_pos rfl]
                simp only [prependEvents, List.cons_append, List.nil_append]
                have hbody := stepBody_scrub env f g
                  (resolveStep {env with saveOk := f} s) i _ _ _ _ (ih i) (ih false)
                exact ⟨hbody.1,
                  by rw [scrubSaves_cons_guard, scrubSaves_cons_guard, hbody.2]⟩
            | false =>
                rw [if_neg (fun h => Bool.noConfusion h),
                  if_neg (fun h => Bool.noConfusion h)]
                simp only [prependEvents, List.cons_append, List.nil_append]
                exact ⟨(ih i).1,
                  by rw [scrubSaves_cons_guard, scrubSaves_cons_guard,
                    scrubSaves_cons_skip, scrubSaves_cons_skip, (ih i).2]⟩
  · intro env st h
    unfold saveEvents
    rw [if_neg (by simp [h])]
  · intro msg args
    rfl

/-- C4 is false as stated in its resume half: with no state to read, the
resume command prints a notice and returns successfully (`Ok(())`, exit zero)
rather than aborting with an error. -/
theorem c4_counterexample :
    resume_handle (.error "Failed to open state file") ⟨false, false⟩ =
      .ok .nothingToResume := by
  rfl

/-- Witness for amended C4: an always-failing saver leaves the run outcome and
scrubbed trace of a one-step run unchanged, a failing save produces exactly
the warning pair, and resume with no state returns the notice. -/
theorem c4_soft_persistence_resume_notice_witness :
    (runLoop {envOk with saveOk := fun _ => false} false [stepP]).2 =
        (runLoop {envOk with saveOk := fun _ => true} false [stepP]).2
    ∧ scrubSaves (runLoop {envOk with saveOk := fun _ => false} false [stepP]).1 =
        scrubSaves (runLoop {envOk with saveOk := fun _ => true} false [stepP]).1
    ∧ saveEvents {envOk with saveOk := fun _ => false} ⟨some "p1", false⟩ =
        [.saveState ⟨some "p1", false⟩ false, .saveWarning]
    ∧ resume_handle (.error "no state") ⟨true, false⟩ = .ok .nothingToResume := by
  have h1 := c4_soft_persistence_resume_notice.1 envOk
    (fun _ => false) (fun _ => true) false [stepP]
  refine ⟨h1.1, h1.2, ?_, ?_⟩
  · exact c4_soft_persistence_resume_notice.2.1
      {envOk with saveOk := fun _ => false} ⟨some "p1", false⟩ rfl
  · exact c4_soft_persistence_resume_notice.2.2 "no state" ⟨true, false⟩

/-- C6: a dry run executes each step's guard for real, in order, with output
routed to the discard sink (the trace is exactly the guard events, so no
package install, pre-script or main script happens); guard-failed steps form
the skipped-by-guard list and the rest the would-run list, and (with unique
ids) no skipped step ever appears among the would-run ids. -/
theorem c6_dry_run_plan (env : ExecEnv) (steps : List Step) :
    (run_dry env steps).1 =
      steps.filterMap (fun s => s.whenScript.map
        (fun _ => Event.guardRun s.id true (env.whenOk s)))
    ∧ (run_dry env steps).2.stepsIgnoredByWhen =
        (steps.filter (fun s => s.whenScript.isSome && !env.whenOk s)).map Step.id
    ∧ (run_dry env steps).2.stepsToRun.map StepDryRun.id =
        (steps.filter (fun s => !(s.whenScript.isSome && !env.whenOk s))).map Step.id
    ∧ (∀ e ∈ (run_dry env steps).1, ∃ id ok, e = Event.guardRun id true ok)
    ∧ ((steps.map Step.id).Nodup →
        ∀ id ∈ (run_dry env steps).2.stepsIgnoredByWhen,
          id ∉ (run_dry env steps).2.stepsToRun.map StepDryRun.id) := by
  have h1 : (run_dry env steps).1 =
      steps.filterMap (fun s => s.whenScript.map
        (fun _ => Event.guardRun s.id true (env.whenOk s))) := by
    induction steps with
    | nil => rfl
    | cons s rest ih =>
        cases hws : s.whenScript with
        | none => simp [run_dry, hws, ih]
        | some w =>
            cases hwo : env.whenOk s with
            | true => simp [run_dry, hws, hwo, ih]
            | false => simp [run_dry, hws, hwo, ih]
  have h2 : (run_dry env steps).2.stepsIgnoredByWhen =
      (steps.filter (fun s => s.whenScript.isSome && !env.whenOk s)).map Step.id := by
    clear h1
    induction steps with
    | nil => rfl
    | cons s rest ih =>
        cases hws : s.whenScript with
        | none => simp [run_dry, hws, ih]
        | some w =>
            cases hwo : env.whenOk s with
            | true => simp [run_dry, hws, hwo, ih]
            | false => simp [run_dry, hws, hwo, ih]
  have h3 : (run_dry env steps).2.stepsToRun.map StepDryRun.id =
      (steps.filter (fun s => !(s.whenScript.isSome && !env.whenOk s))).map Step.id := by
    clear h1 h2
    induction steps with
    | nil => rfl
    | cons s rest ih =>
        cases hws : s.whenScript with
        | none => simp [run_dry, hws, ih, dryRecord]
        | some w =>
            cases hwo : env.whenOk s with
            | true => simp [run_dry, hws, hwo, ih, dryRecord]
            | false => simp [run_dry, hws, hwo, ih]
  refine ⟨h1, h2, h3, ?_, ?_⟩
  · intro e he
    rw [h1] at he
    obtain ⟨s, hs, hmap⟩ := List.mem_filterMap.mp he
    cases hws : s.whenScript with
    | none => rw [hws] at hmap; exact Option.noConfusion hmap
    | some w =>
        rw [hws] at hmap
        exact ⟨s.id, env.whenOk s, (Option.some.inj hmap).symm⟩
  · intro hnd id hid hmem
    rw [h2] at hid
    rw [h3] at hmem
    obtain ⟨s, hs, hsid⟩ := List.mem_map.mp hid
    obtain ⟨s', hs', hsid'⟩ := List.mem_map.mp hmem
    have hmem1 := List.mem_filter.mp hs
    have hmem2 := List.mem_filter.mp hs'
    have heq : s = s' :=
      List.inj_on_of_nodup_map hnd hmem1.1 hmem2.1 (by rw [hsid, hsid'])
    have hp := hmem1.2
    have hq := hmem2.2
    rw [heq] at hp
    rw [hp] at hq
    exact Bool.noConfusion hq

/-- Witness for C6 on a concrete pool (a guard-failing step, a guard-passing
step and a guard-free step): guards run to the sink, only the failing one is
skipped, and it is absent from the would-run ids. -/
theorem c6_dry_run_plan_witness :
    (run_dry envGuardFails [stepG, stepP]).1 =
      [Event.guardRun "s1" true false]
    ∧ (run_dry envGuardFails [stepG, stepP]).2.stepsIgnoredByWhen = ["s1"]
    ∧ (run_dry envGuardFails [stepG, stepP]).2.stepsToRun.map StepDryRun.id = ["p1"]
    ∧ "s1" ∉ (run_dry envGuardFails [stepG, stepP]).2.stepsToRun.map StepDryRun.id := by
  have h := c6_dry_run_plan envGuardFails [stepG, stepP]
  refine ⟨?_, ?_, ?_, ?_⟩
  · rw [h.1]; decide
  · rw [h.2.1]; decide
  · rw [h.2.2.1]; decide
  · exact h.2.2.2.2 (by decide) "s1" (by rw [h.2.1]; decide)

/-- Witness for amended C3 at a concrete pool: re-applying the OS filter to
its matching set is the identity, and re-applying the tag filter `t` to its
matching set `[s1]` (where validation still passes) returns `[s1]`. -/
theorem c3_amended_idempotent_witness :
    filter_by_os (filter_by_os [stepT1, stepT2] infoEx).matching infoEx =
      ⟨(filter_by_os [stepT1, stepT2] infoEx).matching, []⟩
    ∧ filter_by_tags [stepT1] (.var "t") = .ok ⟨[stepT1], []⟩ := by
  constructor
  · exact c3_amended_idempotent.1 [stepT1, stepT2] infoEx
  · exact c3_amended_idempotent.2 [stepT1, stepT2] (.var "t") ⟨[stepT1], [stepT2]⟩
      (by decide) (by decide)

end Mepris
